import Mathlib

/-!
Verification development for the Guitar Fretboard Trainer
(`guitartrainer.py`).  The Python source is shallowly embedded below:

* floating-point magnitudes, timestamps and the noise window are modelled
  as exact rationals (`ℚ`);
* the logarithmic pitch arithmetic (`midi_to_freq`, `freq_to_midi`) and the
  FFT bin grid are modelled over the reals (`ℝ`);
* `raise ValueError` / `IndexError` in the source become `Except Unit` or
  `Option` results (`.error`/`none` means the Python call raised, hence no
  state was changed);
* the thread-level calls of `random.choice` / `random.randint` become
  explicit natural-number parameters: `random.choice(l)` on a non-empty
  list is `l[n % l.length]` for an arbitrary `n`, and an empty argument
  (which makes Python raise) yields `none`.
-/

namespace GuitarTrainer

/-- `MIDI_MIN = 40  # E2` -/
def MIDI_MIN : ℤ := 40

/-- `MIDI_MAX = 76  # E5` -/
def MIDI_MAX : ℤ := 76

/-- `SAMPLING_FREQ = 44100` -/
def SAMPLING_FREQ : ℕ := 44100

/-- `SAMPLE_SIZE = 2 ** 14` -/
def SAMPLE_SIZE : ℕ := 2 ^ 14

/-- `THRESHOLD_MULTIPLIER_DEFAULT = 1.3` -/
def THRESHOLD_MULTIPLIER_DEFAULT : ℚ := 13 / 10

/-- `ADD_NOTES_INCREMENT_DEFAULT = 10` -/
def ADD_NOTES_INCREMENT_DEFAULT : ℕ := 10

/-- The `Note` value object: midi value, display name, staff location.
Python `__eq__` compares all three fields, so equality is structural. -/
structure Note where
  midi : ℤ
  name : String
  staff_loc : ℤ
deriving DecidableEq, Inhabited

/-- `Note.__init__`: the guard in the source is
`if midi >= MIDI_MIN or midi <= MIDI_MAX` (with `or`), and the `else`
branch raises `ValueError`.  `none` models the raising branch. -/
def noteInit (midi : ℤ) (name : String) (staff_loc : ℤ) : Option Note :=
  if MIDI_MIN ≤ midi ∨ midi ≤ MIDI_MAX then some ⟨midi, name, staff_loc⟩
  else none

/-- Modelled from the spec: `Construction fails if midi falls outside the
supported band.` — the validating constructor the spec describes, used to
contrast with `noteInit` above. -/
def noteInitSpec (midi : ℤ) (name : String) (staff_loc : ℤ) : Option Note :=
  if MIDI_MIN ≤ midi ∧ midi ≤ MIDI_MAX then some ⟨midi, name, staff_loc⟩
  else none

/-- A `Topic` is a named list of notes (`Topic.notes` returns a copy, so the
list is effectively immutable). -/
structure Topic where
  name : String
  notes : List Note
deriving DecidableEq, Inhabited

/-- `Trainer.__init__`: the static topic catalog (`self._topics`).
`StringTopic` adds nothing over `Topic` and is flattened away. -/
def trainerTopics : List Topic :=
  [⟨"Low E String Sans Sharps/Flats",
    [⟨40, "E", -5⟩, ⟨41, "F", -4⟩, ⟨43, "G", -3⟩, ⟨45, "A", -2⟩,
     ⟨47, "B", -1⟩, ⟨48, "C", 0⟩, ⟨50, "D", 1⟩, ⟨52, "E", 2⟩]⟩,
   ⟨"Low E String Incl Sharps",
    [⟨40, "E", -5⟩, ⟨41, "F", -4⟩, ⟨42, "F#", -4⟩, ⟨43, "G", -3⟩,
     ⟨44, "G#", -3⟩, ⟨45, "A", -2⟩, ⟨46, "A#", -2⟩, ⟨47, "B", -1⟩,
     ⟨48, "C", 0⟩, ⟨49, "C#", 0⟩, ⟨50, "D", 1⟩, ⟨51, "D#", 1⟩,
     ⟨52, "E", 2⟩]⟩,
   ⟨"Low E String Incl Flats",
    [⟨40, "E", -5⟩, ⟨41, "F", -4⟩, ⟨42, "Gb", -3⟩, ⟨43, "G", -3⟩,
     ⟨44, "Ab", -2⟩, ⟨45, "A", -2⟩, ⟨46, "Bb", -1⟩, ⟨47, "B", -1⟩,
     ⟨48, "C", 0⟩, ⟨49, "Db", 1⟩, ⟨50, "D", 1⟩, ⟨51, "Eb", 2⟩,
     ⟨52, "E", 2⟩]⟩,
   ⟨"A String Sans Sharps/Flats",
    [⟨45, "A", -2⟩, ⟨47, "B", -1⟩, ⟨48, "C", 0⟩, ⟨50, "D", 1⟩,
     ⟨52, "E", 2⟩, ⟨53, "F", 3⟩, ⟨55, "G", 4⟩, ⟨57, "A", 5⟩]⟩,
   ⟨"A String Incl Sharps",
    [⟨45, "A", -2⟩, ⟨46, "A#", -2⟩, ⟨47, "B", -1⟩, ⟨48, "C", 0⟩,
     ⟨49, "C#", 0⟩, ⟨50, "D", 1⟩, ⟨51, "D#", 1⟩, ⟨52, "E", 2⟩,
     ⟨53, "F", 3⟩, ⟨54, "F#", 3⟩, ⟨55, "G", 4⟩, ⟨56, "G#", 4⟩,
     ⟨57, "A", 5⟩]⟩,
   ⟨"A String Incl Flats",
    [⟨45, "A", -2⟩, ⟨46, "Bb", -1⟩, ⟨47, "B", -1⟩, ⟨48, "C", 0⟩,
     ⟨49, "Db", 1⟩, ⟨50, "D", 1⟩, ⟨51, "Eb", 2⟩, ⟨52, "E", 2⟩,
     ⟨53, "F", 3⟩, ⟨54, "Gb", 4⟩, ⟨55, "G", 4⟩, ⟨56, "Ab", 5⟩,
     ⟨57, "A", 5⟩]⟩,
   ⟨"D String Sans Sharps/Flats",
    [⟨50, "D", 1⟩, ⟨52, "E", 2⟩, ⟨53, "F", 3⟩, ⟨55, "G", 4⟩,
     ⟨57, "A", 5⟩, ⟨59, "B", 6⟩, ⟨60, "C", 7⟩, ⟨62, "D", 8⟩]⟩,
   ⟨"D String Incl Sharps",
    [⟨50, "D", 1⟩, ⟨51, "D#", 1⟩, ⟨52, "E", 2⟩, ⟨53, "F", 3⟩,
     ⟨54, "F#", 3⟩, ⟨55, "G", 4⟩, ⟨56, "G#", 4⟩, ⟨57, "A", 5⟩,
     ⟨58, "A#", 5⟩, ⟨59, "B", 6⟩, ⟨60, "C", 7⟩, ⟨61, "C#", 7⟩,
     ⟨62, "D", 8⟩]⟩,
   ⟨"D String Incl Flats",
    [⟨50, "D", 1⟩, ⟨51, "Eb", 2⟩, ⟨52, "E", 2⟩, ⟨53, "F", 3⟩,
     ⟨54, "Gb", 4⟩, ⟨55, "G", 4⟩, ⟨56, "Ab", 5⟩, ⟨57, "A", 5⟩,
     ⟨58, "Bb", 6⟩, ⟨59, "B", 6⟩, ⟨60, "C", 7⟩, ⟨61, "Db", 8⟩,
     ⟨62, "D", 8⟩]⟩,
   ⟨"G String Sans Sharps/Flats",
    [⟨55, "G", 4⟩, ⟨57, "A", 5⟩, ⟨59, "B", 6⟩, ⟨60, "C", 7⟩,
     ⟨62, "D", 8⟩, ⟨64, "E", 9⟩, ⟨65, "F", 10⟩, ⟨67, "G", 11⟩]⟩,
   ⟨"G String Incl Sharps",
    [⟨55, "G", 4⟩, ⟨56, "G#", 4⟩, ⟨57, "A", 5⟩, ⟨58, "A#", 5⟩,
     ⟨59, "B", 6⟩, ⟨60, "C", 7⟩, ⟨61, "C#", 7⟩, ⟨62, "D", 8⟩,
     ⟨63, "D#", 8⟩, ⟨64, "E", 9⟩, ⟨65, "F", 10⟩, ⟨66, "F#", 10⟩,
     ⟨67, "G", 11⟩]⟩,
   ⟨"G String Incl Flats",
    [⟨55, "G", 4⟩, ⟨56, "Ab", 5⟩, ⟨57, "A", 5⟩, ⟨58, "Bb", 6⟩,
     ⟨59, "B", 6⟩, ⟨60, "C", 7⟩, ⟨61, "Db", 8⟩, ⟨62, "D", 8⟩,
     ⟨63, "Eb", 9⟩, ⟨64, "E", 9⟩, ⟨65, "F", 10⟩, ⟨66, "Gb", 11⟩,
     ⟨67, "G", 11⟩]⟩,
   ⟨"B String Sans Sharps/Flats",
    [⟨59, "B", 6⟩, ⟨60, "C", 7⟩, ⟨62, "D", 8⟩, ⟨64, "E", 9⟩,
     ⟨65, "F", 10⟩, ⟨67, "G", 11⟩, ⟨69, "A", 12⟩, ⟨71, "B", 13⟩]⟩,
   ⟨"B String Incl Sharps",
    [⟨59, "B", 6⟩, ⟨60, "C", 7⟩, ⟨61, "C#", 7⟩, ⟨62, "D", 8⟩,
     ⟨63, "D#", 8⟩, ⟨64, "E", 9⟩, ⟨65, "F", 10⟩, ⟨66, "F#", 10⟩,
     ⟨67, "G", 11⟩, ⟨68, "G#", 11⟩, ⟨69, "A", 12⟩, ⟨70, "A#", 12⟩,
     ⟨71, "B", 13⟩]⟩,
   ⟨"B String Incl Flats",
    [⟨59, "B", 6⟩, ⟨60, "C", 7⟩, ⟨61, "Db", 8⟩, ⟨62, "D", 8⟩,
     ⟨63, "Eb", 9⟩, ⟨64, "E", 9⟩, ⟨65, "F", 10⟩, ⟨66, "Gb", 11⟩,
     ⟨67, "G", 11⟩, ⟨68, "Ab", 12⟩, ⟨69, "A", 12⟩, ⟨70, "Bb", 13⟩,
     ⟨71, "B", 13⟩]⟩,
   ⟨"High E String Sans Sharps/Flats",
    [⟨64, "E", 9⟩, ⟨65, "F", 10⟩, ⟨67, "G", 11⟩, ⟨69, "A", 12⟩,
     ⟨71, "B", 13⟩, ⟨72, "C", 14⟩, ⟨74, "D", 15⟩, ⟨76, "E", 16⟩]⟩,
   ⟨"High E String Incl Sharps",
    [⟨64, "E", 9⟩, ⟨65, "F", 10⟩, ⟨66, "F#", 10⟩, ⟨67, "G", 11⟩,
     ⟨68, "G#", 11⟩, ⟨69, "A", 12⟩, ⟨70, "A#", 12⟩, ⟨71, "B", 13⟩,
     ⟨72, "C", 14⟩, ⟨73, "C#", 14⟩, ⟨74, "D", 15⟩, ⟨75, "D#", 15⟩,
     ⟨76, "E", 16⟩]⟩,
   ⟨"High E String Incl Flats",
    [⟨64, "E", 9⟩, ⟨65, "F", 10⟩, ⟨66, "Gb", 11⟩, ⟨67, "G", 11⟩,
     ⟨68, "Ab", 12⟩, ⟨69, "A", 12⟩, ⟨70, "Bb", 13⟩, ⟨71, "B", 13⟩,
     ⟨72, "C", 14⟩, ⟨73, "Db", 15⟩, ⟨74, "D", 15⟩, ⟨75, "Eb", 16⟩,
     ⟨76, "E", 16⟩]⟩]

/-- The `NotePractice` record (one practice attempt).  Timestamps are
rationals; `0` is the "unset" sentinel exactly as in the source. -/
structure NotePractice where
  target_note : Note
  num_notes_heard : ℕ
  complete : Bool
  terminate : Bool
  start_timestamp : ℚ
  success_timestamp : ℚ
deriving DecidableEq, Inhabited

/-- `NotePractice.__init__(target_note)` -/
def NotePractice.mk0 (t : Note) : NotePractice :=
  { target_note := t, num_notes_heard := 0, complete := false,
    terminate := false, start_timestamp := 0, success_timestamp := 0 }

/-- The `terminate` property setter:
`if self._terminate is True or value is False: raise ValueError`. -/
def NotePractice.setTerminate (p : NotePractice) (v : Bool) :
    Except Unit NotePractice :=
  if p.terminate = true ∨ v = false then .error ()
  else .ok { p with terminate := v }

/-- The `complete` property setter:
succeeds only on the `false → true` transition. -/
def NotePractice.setComplete (p : NotePractice) (v : Bool) :
    Except Unit NotePractice :=
  if p.complete = false ∧ v = true then .ok { p with complete := v }
  else .error ()

/-- The `num_notes_heard` property setter (no guard). -/
def NotePractice.setNumNotesHeard (p : NotePractice) (v : ℕ) : NotePractice :=
  { p with num_notes_heard := v }

/-- The `start_timestamp` property setter:
`if self._start_timestamp != 0: raise ValueError`. -/
def NotePractice.setStartTimestamp (p : NotePractice) (v : ℚ) :
    Except Unit NotePractice :=
  if p.start_timestamp ≠ 0 then .error ()
  else .ok { p with start_timestamp := v }

/-- The `success_timestamp` property setter:
`if value <= self._start_timestamp or self._success_timestamp != 0: raise`. -/
def NotePractice.setSuccessTimestamp (p : NotePractice) (v : ℚ) :
    Except Unit NotePractice :=
  if v ≤ p.start_timestamp ∨ p.success_timestamp ≠ 0 then .error ()
  else .ok { p with success_timestamp := v }

/-! ## Noise-floor estimator (the deque `_noise_levels` and `_noise_threshold`) -/

/-- `np.average` over a list of rationals. -/
def listAvg (l : List ℚ) : ℚ := l.sum / (l.length : ℚ)

/-- `np.average(sorted(self._noise_levels)[0:10]) * self._threshold_multiplier`:
the threshold derived from a window.  `sorted` (Python, ascending, on a copy)
is modelled by `List.insertionSort (· ≤ ·)`, which for rationals produces the
same ascending list. -/
def noiseThresholdOf (levels : List ℚ) (mult : ℚ) : ℚ :=
  listAvg ((levels.insertionSort (· ≤ ·)).take 10) * mult

/-- One pass of the noise/gate portion of `Trainer._capture_note_thread`:
```
self._noise_levels.popleft()
self._noise_levels.append(peak)
self._noise_threshold = np.average(sorted(self._noise_levels)[0:10]) * mult
if peak > self._noise_threshold: ...
```
Returns (new window, new threshold, gate outcome). -/
def captureGate (levels : List ℚ) (mult peak : ℚ) : List ℚ × ℚ × Bool :=
  let levels2 := levels.tail ++ [peak]
  let thr := noiseThresholdOf levels2 mult
  (levels2, thr, decide (thr < peak))

/-- Modelled from the spec: `if magnitude exceeds the previous threshold
(gate check happens against the estimate as it stood before this reading
was folded in)` — the gate the spec describes, compared against the
window as it stood before the new reading was pushed. -/
def captureGateSpecTimed (levels : List ℚ) (mult peak : ℚ) : Bool :=
  decide (noiseThresholdOf levels mult < peak)

/-! ## Trainer (the practice scheduler) -/

/-- The mutable scheduler state of `Trainer` (`__slots__` minus the audio
plumbing; the static `_topics` catalog is the constant `trainerTopics`). -/
structure TrainerState where
  topic : Topic
  add_notes_method : ℕ
  notes_in_play : List Note
  notes_in_queue : List Note
  practiced_notes : List NotePractice
  topic_changed : Bool
  add_notes_method_changed : Bool
  threshold_multiplier : ℚ
  add_notes_increment : ℕ
  noise_levels : List ℚ
  noise_threshold : ℚ
deriving DecidableEq

/-- `Trainer.ADD_NOTES_INCREMENTALLY = 0` -/
def ADD_NOTES_INCREMENTALLY : ℕ := 0

/-- `Trainer.ADD_NOTES_ALL_AT_ONCE = 1` -/
def ADD_NOTES_ALL_AT_ONCE : ℕ := 1

/-- `Trainer.__init__` (scheduler-relevant fields). -/
def initState : TrainerState :=
  { topic := trainerTopics.getD 1 default
    add_notes_method := ADD_NOTES_INCREMENTALLY
    notes_in_play := []
    notes_in_queue := []
    practiced_notes := []
    topic_changed := true
    add_notes_method_changed := false
    threshold_multiplier := THRESHOLD_MULTIPLIER_DEFAULT
    add_notes_increment := ADD_NOTES_INCREMENT_DEFAULT
    noise_levels := List.replicate 50 100000
    noise_threshold := 100000 }

/-- `random.choice(l)`: an arbitrary element of `l`, selected by an
arbitrary natural `n`; `none` when `l` is empty (Python raises). -/
def choiceOf (l : List Note) (n : ℕ) : Option Note := l.get? (n % l.length)

/-- One `r = random.choice(queue); play.append(r); del queue[queue.index(r)]`
round (used both for seeding and for incremental growth).  `del` removes
the first list entry equal to `r` (`queue.index(r)`), i.e. `List.erase`. -/
def moveNote (play queue : List Note) (n : ℕ) :
    Option (List Note × List Note) :=
  (choiceOf queue n).map fun r => (play ++ [r], queue.erase r)

/-- The seeding loop `for x in range(0, 3)` of the incremental reset: three
`moveNote` rounds starting from an empty play list and the full topic. -/
def seedThree (notes : List Note) (r0 r1 r2 : ℕ) :
    Option (List Note × List Note) :=
  (moveNote [] notes r0).bind fun pq1 =>
    (moveNote pq1.1 pq1.2 r1).bind fun pq2 =>
      moveNote pq2.1 pq2.2 r2

/-- Inner loop of `_notes_sorted_by_times_practiced`: bump the count of the
first entry whose note equals the target (Python breaks after the first
match). -/
def incFirst : List (Note × ℕ) → Note → List (Note × ℕ)
  | [], _ => []
  | (n, c) :: rest, t =>
    if n = t then (n, c + 1) :: rest else (n, c) :: incFirst rest t

/-- `_notes_sorted_by_times_practiced`'s counting phase: walk the practiced
notes most recent first, stopping after `5 * |notes_in_play|` of them. -/
def noteTimes (play : List Note) (practiced : List NotePractice) :
    List (Note × ℕ) :=
  (practiced.reverse.take (5 * play.length)).foldl
    (fun acc np => incFirst acc np.target_note)
    (play.map (fun n => (n, 0)))

/-- `Trainer._notes_sorted_by_times_practiced`: stable ascending sort by
count, then project the notes. -/
def notesSortedByTimesPracticed (play : List Note)
    (practiced : List NotePractice) : List Note :=
  ((noteTimes play practiced).insertionSort (fun a b => a.2 ≤ b.2)).map
    Prod.fst

/-- The target-selection half of `Trainer.new_note_practice` (the three-way
branch on `len(self._practiced_notes)`), with the attempt list as produced
by the reset/growth phase.  `rsel` drives the single random draw.
`none` models Python raising (`list.remove` on a missing element,
`random.choice`/`randint` on an empty range). -/
def pickTarget (play : List Note) (practiced : List NotePractice)
    (rsel : ℕ) : Option Note :=
  if 4 ≤ practiced.length then
    let lastt := (practiced.getLastD default).target_note
    let notes := notesSortedByTimesPracticed play practiced
    if lastt ∈ notes then
      let notes2 := notes.erase lastt
      notes2.get? (rsel % (min (notes2.length - 1) 2 + 1))
    else none
  else if 0 < practiced.length then
    let lastt := (practiced.getLastD default).target_note
    if lastt ∈ play then choiceOf (play.erase lastt) rsel
    else none
  else choiceOf play rsel

/-- The reset/growth phase of `Trainer.new_note_practice` (everything before
"Let's pick a note to play").  Returns the updated
(notes_in_play, notes_in_queue, practiced_notes, topic_changed,
add_notes_method_changed). -/
def newNotePhase1 (s : TrainerState) (r0 r1 r2 : ℕ) :
    Option (List Note × List Note × List NotePractice × Bool × Bool) :=
  if s.topic_changed = true ∨ s.add_notes_method_changed = true then
    if s.add_notes_method = ADD_NOTES_INCREMENTALLY then
      (seedThree s.topic.notes r0 r1 r2).map fun pq =>
        (pq.1, pq.2, [], false, false)
    else if s.add_notes_method = ADD_NOTES_ALL_AT_ONCE then
      some (s.topic.notes, [], [], false, false)
    else
      some (s.notes_in_play, s.notes_in_queue, [], false, false)
  else if 0 < s.practiced_notes.length ∧
      s.practiced_notes.length % s.add_notes_increment = 0 ∧
      0 < s.notes_in_queue.length then
    (moveNote s.notes_in_play s.notes_in_queue r0).map fun pq =>
      (pq.1, pq.2, s.practiced_notes, s.topic_changed,
       s.add_notes_method_changed)
  else
    some (s.notes_in_play, s.notes_in_queue, s.practiced_notes,
          s.topic_changed, s.add_notes_method_changed)

/-- `Trainer.new_note_practice`: reset/growth phase, then target selection,
then append the fresh `NotePractice` (the capture thread is started
separately; see `startCaptureOp`). -/
def newNotePractice (s : TrainerState) (r0 r1 r2 rsel : ℕ) :
    Option TrainerState :=
  (newNotePhase1 s r0 r1 r2).bind fun out =>
    (pickTarget out.1 out.2.2.1 rsel).map fun tgt =>
      { s with
        notes_in_play := out.1
        notes_in_queue := out.2.1
        practiced_notes := out.2.2.1 ++ [NotePractice.mk0 tgt]
        topic_changed := out.2.2.2.1
        add_notes_method_changed := out.2.2.2.2 }

/-- The `threshold_multiplier` property setter (`1 <= value <= 3`). -/
def setThresholdMultiplier (s : TrainerState) (v : ℚ) :
    Except Unit TrainerState :=
  if 1 ≤ v ∧ v ≤ 3 then .ok { s with threshold_multiplier := v }
  else .error ()

/-- The `add_notes_increment` property setter (`1 <= value <= 100`). -/
def setAddNotesIncrement (s : TrainerState) (v : ℕ) :
    Except Unit TrainerState :=
  if 1 ≤ v ∧ v ≤ 100 then .ok { s with add_notes_increment := v }
  else .error ()

/-- The `add_notes_method` property setter: only the two known constants are
accepted; the changed flag is raised only when the value differs. -/
def setAddNotesMethod (s : TrainerState) (v : ℕ) :
    Except Unit TrainerState :=
  if v = ADD_NOTES_INCREMENTALLY ∨ v = ADD_NOTES_ALL_AT_ONCE then
    .ok { s with
      add_notes_method_changed :=
        if v ≠ s.add_notes_method then true else s.add_notes_method_changed
      add_notes_method := v }
  else .error ()

/-- Python list indexing `l[v]` with negative-index wrap-around; `none` is
`IndexError`. -/
def pyListGet (l : List Topic) (v : ℤ) : Option Topic :=
  if 0 ≤ v then l.get? v.toNat
  else if 0 ≤ (l.length : ℤ) + v then l.get? ((l.length : ℤ) + v).toNat
  else none

/-- The `current_topic` property setter:
`if value <= len(self.topics): self._topic = self._topics[value]; ...
else: raise ValueError`.  An out-of-range index inside the guard raises
`IndexError` from `self._topics[value]` before any field is assigned;
both failure modes are `.error`. -/
def setCurrentTopic (s : TrainerState) (v : ℤ) : Except Unit TrainerState :=
  if v ≤ (trainerTopics.length : ℤ) then
    match pyListGet trainerTopics v with
    | some t => .ok { s with topic := t, topic_changed := true }
    | none => .error ()
  else .error ()

/-- The start of `_capture_note_thread`: set the attempt's start timestamp
(the attempt operated on is the most recently appended one). -/
def startCaptureOp (s : TrainerState) (t : ℚ) : Option TrainerState :=
  s.practiced_notes.getLast?.bind fun np =>
    (np.setStartTimestamp t).toOption.map fun np1 =>
      { s with practiced_notes := s.practiced_notes.dropLast ++ [np1] }

/-- `Trainer.kill_current_note_practice`. -/
def killOp (s : TrainerState) : Option TrainerState :=
  if s.practiced_notes.isEmpty then some s
  else
    ((s.practiced_notes.getLastD default).setTerminate true).toOption.map
      fun np1 =>
        { s with practiced_notes := s.practiced_notes.dropLast ++ [np1] }

/-! ## Pitch arithmetic and the FFT bin grid (real-valued) -/

/-- `Note.midi_to_freq`: `440 * 2.0 ** ((midi - 69) / 12.0)`. -/
noncomputable def midi_to_freq (m : ℤ) : ℝ :=
  440 * (2 : ℝ) ^ (((m : ℝ) - 69) / 12)

/-- `Note.freq_to_midi`: `int(round(69 + 12 * np.log2(freq / 440.0)))`.
Python 2 `round` rounds half away from zero, which for the positive
arguments arising here agrees with Mathlib's `round` (half up). -/
noncomputable def freq_to_midi (f : ℝ) : ℤ :=
  round ((69 : ℝ) + 12 * Real.logb 2 (f / 440))

/-- `self._freq_step = float(SAMPLING_FREQ) / SAMPLE_SIZE`. -/
noncomputable def freqStep : ℝ := (44100 : ℝ) / 16384

/-- `np.fft.fftfreq(SAMPLE_SIZE, 1./SAMPLING_FREQ)`: bin `k` carries
frequency `k * step` for `k < 8192` and `(k - 16384) * step` above. -/
noncomputable def fft_freqs (k : ℕ) : ℝ :=
  if k < 8192 then (k : ℝ) * freqStep else ((k : ℝ) - 16384) * freqStep

open scoped Classical in
/-- `np.argmin` over `g 0, ..., g (n-1)`: first index attaining the
minimum (ties keep the earlier index, as numpy does). -/
noncomputable def argminIdx (g : ℕ → ℝ) (n : ℕ) : ℕ :=
  (List.range n).foldl (fun b i => if g i < g b then i else b) 0

/-- `np.argmax` over `g 0, ..., g (n-1)` (first index attaining the
maximum): the argmin of the negated values. -/
noncomputable def argmaxIdx (g : ℕ → ℝ) (n : ℕ) : ℕ :=
  argminIdx (fun i => -(g i)) n

/-- `self._fft_imin = (np.abs(self._fft_freqs - Note.midi_to_freq(MIDI_MIN))).argmin()`. -/
noncomputable def fft_imin : ℕ :=
  argminIdx (fun i => |fft_freqs i - midi_to_freq MIDI_MIN|) SAMPLE_SIZE

/-- `self._fft_imax = (np.abs(self._fft_freqs - Note.midi_to_freq(MIDI_MAX))).argmin() + 1`. -/
noncomputable def fft_imax : ℕ :=
  argminIdx (fun i => |fft_freqs i - midi_to_freq MIDI_MAX|) SAMPLE_SIZE + 1

/-- `np.abs(fft[self._fft_imin:self._fft_imax]).argmax() + self._fft_imin`:
the bin index reported as dominant, for an arbitrary magnitude spectrum
`mag` (the absolute values of the rfft output). -/
noncomputable def dominantIdx (mag : ℕ → ℝ) : ℕ :=
  argmaxIdx (fun j => mag (fft_imin + j)) (fft_imax - fft_imin) + fft_imin

/-- `freq = self._fft_freqs[...]`: the dominant frequency reported for the
block whose magnitude spectrum is `mag`. -/
noncomputable def dominantFreq (mag : ℕ → ℝ) : ℝ :=
  fft_freqs (dominantIdx mag)

open scoped Classical in
/-- One full iteration of the `while` body of `_capture_note_thread`, for a
block whose analysis produced dominant frequency `freq` and magnitude
reading `peak`, at wall-clock time `t`.  `none` models an exception
escaping the thread. -/
noncomputable def captureBlock (s : TrainerState) (freq : ℝ) (peak : ℚ)
    (t : ℚ) : Option TrainerState :=
  s.practiced_notes.getLast?.bind fun np =>
    let res := captureGate s.noise_levels s.threshold_multiplier peak
    let s1 := { s with noise_levels := res.1, noise_threshold := res.2.1 }
    if res.2.2 then
      let np1 := np.setNumNotesHeard (np.num_notes_heard + 1)
      if freq_to_midi freq = np.target_note.midi then
        (np1.setSuccessTimestamp t).toOption.bind fun np2 =>
          (np2.setComplete true).toOption.map fun np3 =>
            { s1 with practiced_notes := s.practiced_notes.dropLast ++ [np3] }
      else
        some { s1 with practiced_notes := s.practiced_notes.dropLast ++ [np1] }
    else some s1

/-! ## Reachable scheduler states -/

/-- States reachable from `Trainer.__init__` through the public operations
and the capture thread's own mutations. -/
inductive Reachable : TrainerState → Prop
  | base : Reachable initState
  | step_topic {s s' : TrainerState} {v : ℤ} : Reachable s →
      setCurrentTopic s v = .ok s' → Reachable s'
  | step_method {s s' : TrainerState} {v : ℕ} : Reachable s →
      setAddNotesMethod s v = .ok s' → Reachable s'
  | step_mult {s s' : TrainerState} {v : ℚ} : Reachable s →
      setThresholdMultiplier s v = .ok s' → Reachable s'
  | step_inc {s s' : TrainerState} {v : ℕ} : Reachable s →
      setAddNotesIncrement s v = .ok s' → Reachable s'
  | step_new {s s' : TrainerState} {r0 r1 r2 rsel : ℕ} : Reachable s →
      newNotePractice s r0 r1 r2 rsel = some s' → Reachable s'
  | step_start {s s' : TrainerState} {t : ℚ} : Reachable s →
      startCaptureOp s t = some s' → Reachable s'
  | step_block {s s' : TrainerState} {f : ℝ} {p t : ℚ} : Reachable s →
      captureBlock s f p t = some s' → Reachable s'
  | step_kill {s s' : TrainerState} : Reachable s →
      killOp s = some s' → Reachable s'

/-- The scheduler invariant: a recognised add-notes method, a catalog
topic, and — once the changed flags have been consumed — play/queue
partition the topic's notes and every recorded attempt targeted an
in-play note. -/
def SchedInv (s : TrainerState) : Prop :=
  (s.add_notes_method = ADD_NOTES_INCREMENTALLY ∨
     s.add_notes_method = ADD_NOTES_ALL_AT_ONCE) ∧
  s.topic ∈ trainerTopics ∧
  (s.topic_changed = false ∧ s.add_notes_method_changed = false →
    (s.notes_in_play ++ s.notes_in_queue).Perm s.topic.notes ∧
    ∀ np ∈ s.practiced_notes, np.target_note ∈ s.notes_in_play)

/-- Chains of `k` consecutive `new_note_practice` calls (with arbitrary
randomness at each step), from `s` to the state after the `k`-th call. -/
inductive RunsFrom : ℕ → TrainerState → TrainerState → Prop
  | zero (s : TrainerState) : RunsFrom 0 s s
  | succ {k : ℕ} {s s1 s2 : TrainerState} {r0 r1 r2 rsel : ℕ} :
      RunsFrom k s s1 → newNotePractice s1 r0 r1 r2 rsel = some s2 →
      RunsFrom (k + 1) s s2

/-- The incremental-growth scenario start state: topic index 3
("A String Sans Sharps/Flats", 8 notes), incremental mode, increment 10,
fresh history. -/
def scenario8Start : TrainerState :=
  { initState with topic := trainerTopics.getD 3 default }

/-- A fully-used-up attempt, for exercising the state-machine guards. -/
def usedAttempt : NotePractice :=
  { target_note := ⟨40, "E", -5⟩, num_notes_heard := 3, complete := true,
    terminate := true, start_timestamp := 1, success_timestamp := 2 }

/-- State after one `new_note_practice` from `__init__` (all random draws 0). -/
def afterFirstCall : TrainerState :=
  (newNotePractice initState 0 0 0 0).getD initState

/-- State after two `new_note_practice` calls from `__init__`. -/
def afterSecondCall : TrainerState :=
  (newNotePractice afterFirstCall 0 0 0 0).getD initState

/-- State after one `new_note_practice` from the 8-note scenario start. -/
def scenario8After1 : TrainerState :=
  (newNotePractice scenario8Start 0 0 0 0).getD initState

/-! # Theorems -/

/-! ## Generic list helpers -/

lemma get?_eq_some_getD {α : Type} [Inhabited α] (l : List α) (n : ℕ)
    (h : n < l.length) : l.get? n = some (l.getD n default) := by
  induction l generalizing n with
  | nil => simp at h
  | cons a l ih =>
    cases n with
    | zero => rfl
    | succ n => simpa using ih n (by simpa using h)

lemma choiceOf_mem {l : List Note} {n : ℕ} {r : Note}
    (h : choiceOf l n = some r) : r ∈ l :=
  List.get?_mem h

lemma moveNote_spec {play queue : List Note} {n : ℕ}
    {out : List Note × List Note} (h : moveNote play queue n = some out) :
    ∃ r ∈ queue, out.1 = play ++ [r] ∧ out.2 = queue.erase r := by
  unfold moveNote at h
  obtain ⟨r, hr, hout⟩ := Option.map_eq_some'.mp h
  exact ⟨r, choiceOf_mem hr, by rw [← hout], by rw [← hout]⟩

lemma moveNote_perm {play queue : List Note} {n : ℕ}
    {out : List Note × List Note} (h : moveNote play queue n = some out) :
    (out.1 ++ out.2).Perm (play ++ queue) := by
  obtain ⟨r, hr, h1, h2⟩ := moveNote_spec h
  rw [h1, h2, List.append_assoc, List.singleton_append]
  exact List.Perm.append_left play (List.perm_cons_erase hr).symm

/-! ## C2: Note construction -/

/-- C2: the claim says `Note` construction is rejected for every midi
outside `[40, 76]` and accepted inside.  The code's guard is
`midi >= MIDI_MIN or midi <= MIDI_MAX`, which every integer satisfies, so
construction in fact never fails — the `raise ValueError` branch is dead
code and the spec clearly records the intended conjunction.  This theorem
evaluates the embedded constructor: it succeeds for every midi value,
including every out-of-band one. -/
theorem noteInit_never_fails (midi : ℤ) (nm : String) (st : ℤ) :
    noteInit midi nm st = some ⟨midi, nm, st⟩ := by
  unfold noteInit MIDI_MIN MIDI_MAX
  rw [if_pos]
  omega

/-! ## C6: NotePractice single-transition lifecycle -/

/-- C6: each `NotePractice` guard rejects a second transition: setting the
start time when it is non-zero fails; setting the success time fails when
the value is at most the start time or the success time is already set;
re-marking complete fails; re-requesting termination fails.  In this
embedding an `.error` result carries no new record, so the attempt's state
is unchanged on failure. -/
theorem notePractice_single_transition (p : NotePractice) (t v : ℚ) :
    (p.start_timestamp ≠ 0 → p.setStartTimestamp t = .error ()) ∧
    ((v ≤ p.start_timestamp ∨ p.success_timestamp ≠ 0) →
      p.setSuccessTimestamp v = .error ()) ∧
    (p.complete = true → p.setComplete true = .error ()) ∧
    (p.terminate = true → p.setTerminate true = .error ()) := by
  refine ⟨fun h => ?_, fun h => ?_, fun h => ?_, fun h => ?_⟩
  · simp [NotePractice.setStartTimestamp, h]
  · simp [NotePractice.setSuccessTimestamp, h]
  · simp [NotePractice.setComplete, h]
  · simp [NotePractice.setTerminate, h]

/-- C6 witness: the guards all fire on a concrete exhausted attempt. -/
theorem notePractice_single_transition_witness :
    usedAttempt.setStartTimestamp 5 = .error () ∧
    usedAttempt.setSuccessTimestamp 1 = .error () ∧
    usedAttempt.setComplete true = .error () ∧
    usedAttempt.setTerminate true = .error () := by
  obtain ⟨h1, h2, h3, h4⟩ := notePractice_single_transition usedAttempt 5 1
  exact ⟨h1 (by norm_num [usedAttempt]), h2 (Or.inl (by norm_num [usedAttempt])),
         h3 rfl, h4 rfl⟩

/-! ## C5: the sliding noise window and threshold derivation -/

/-- C5: each processed reading evicts exactly the oldest entry and appends
the new reading at the back (strict FIFO), the window stays at its
capacity of 50, and the resulting threshold is the mean of the 10 smallest
window values times the multiplier; the window returned by the update is
the unsorted FIFO window itself, so deriving the threshold (which sorts a
copy) leaves its contents and order unchanged. -/
theorem noise_window_update (w : List ℚ) (mult peak : ℚ)
    (h : w.length = 50) :
    (captureGate w mult peak).1 = w.tail ++ [peak] ∧
    (captureGate w mult peak).1.length = 50 ∧
    ∃ low rest : List ℚ, low.length = 10 ∧
      (low ++ rest).Perm (captureGate w mult peak).1 ∧
      (∀ a ∈ low, ∀ b ∈ rest, a ≤ b) ∧
      (captureGate w mult peak).2.1 = low.sum / 10 * mult := by
  have hw2 : (w.tail ++ [peak]).length = 50 := by
    simp [List.length_tail, h]
  refine ⟨rfl, hw2, ?_⟩
  set w2 := w.tail ++ [peak] with hw2def
  set sorted := w2.insertionSort (· ≤ ·) with hs
  have hsl : sorted.length = 50 := by
    rw [hs, List.length_insertionSort]; exact hw2
  have hperm : ((sorted.take 10) ++ (sorted.drop 10)).Perm w2 := by
    rw [List.take_append_drop]; exact List.perm_insertionSort _ _
  have hsorted : List.Sorted (· ≤ ·) sorted := List.sorted_insertionSort _ _
  refine ⟨sorted.take 10, sorted.drop 10, ?_, hperm, ?_, ?_⟩
  · simp [List.length_take, hsl]
  · have h2 := hsorted
    rw [← List.take_append_drop 10 sorted] at h2
    exact (List.pairwise_append.mp h2).2.2
  · show noiseThresholdOf w2 mult = _
    unfold noiseThresholdOf listAvg
    have h10 : (((w2.insertionSort (· ≤ ·)).take 10).length : ℚ) = 10 := by
      rw [← hs]
      simp [List.length_take, hsl]
    rw [h10, ← hs]

/-- C5 witness: applied to the initial 50-entry window. -/
theorem noise_window_update_witness :
    (captureGate (List.replicate 50 (100000 : ℚ)) (13/10) 7).1 =
      (List.replicate 50 (100000 : ℚ)).tail ++ [7] ∧
    (captureGate (List.replicate 50 (100000 : ℚ)) (13/10) 7).1.length = 50 ∧
    ∃ low rest : List ℚ, low.length = 10 ∧
      (low ++ rest).Perm
        (captureGate (List.replicate 50 (100000 : ℚ)) (13/10) 7).1 ∧
      (∀ a ∈ low, ∀ b ∈ rest, a ≤ b) ∧
      (captureGate (List.replicate 50 (100000 : ℚ)) (13/10) 7).2.1 =
        low.sum / 10 * (13/10) :=
  noise_window_update _ _ _ (by simp)

/-! ## C1: gate timing (compare-before-fold vs fold-before-compare) -/

lemma sorted_zero_cons_replicate :
    List.Sorted (· ≤ ·) ((0 : ℚ) :: List.replicate 49 10) := by
  refine List.sorted_cons.mpr ⟨?_, ?_⟩
  · intro b hb
    rw [List.eq_of_mem_replicate hb]
    norm_num
  · exact List.pairwise_replicate.mpr (Or.inr le_rfl)

lemma insertionSort_replicate_append {a b : ℚ} (hab : a < b) (k : ℕ) :
    (List.replicate k b ++ [a]).insertionSort (· ≤ ·) =
      a :: List.replicate k b := by
  induction k with
  | zero => simp [List.insertionSort]
  | succ k ih =>
    rw [List.replicate_succ, List.cons_append]
    show List.orderedInsert _ b
        ((List.replicate k b ++ [a]).insertionSort (· ≤ ·)) = _
    rw [ih]
    rw [List.orderedInsert, if_neg (not_le.mpr hab)]
    congr 1
    cases k with
    | zero => rfl
    | succ k =>
      rw [List.replicate_succ, List.orderedInsert, if_pos le_rfl]

/-- C1 counterexample: with window `[0, 10, 10, ..., 10]` (50 entries),
multiplier 1 and a new reading of 9.5, the spec-described gate (compare
against the threshold as it stood before the reading was folded in, here
9) fires, but the code's gate compares 9.5 against the threshold
recomputed after folding the reading in (9.95) and does not fire — so a
reading is compared against a threshold whose derivation includes the
reading itself. -/
theorem gate_timing_counterexample :
    captureGateSpecTimed ((0 : ℚ) :: List.replicate 49 10) 1 (19/2) = true ∧
    (captureGate ((0 : ℚ) :: List.replicate 49 10) 1 (19/2)).2.2 = false := by
  have hold : noiseThresholdOf ((0 : ℚ) :: List.replicate 49 10) 1 = 9 := by
    unfold noiseThresholdOf listAvg
    rw [List.Sorted.insertionSort_eq sorted_zero_cons_replicate,
        List.take_succ_cons, List.take_replicate]
    norm_num [List.sum_replicate]
  have hnew :
      noiseThresholdOf (((0 : ℚ) :: List.replicate 49 10).tail ++ [19/2]) 1 =
        199/20 := by
    show noiseThresholdOf (List.replicate 49 (10 : ℚ) ++ [19/2]) 1 = 199/20
    unfold noiseThresholdOf listAvg
    rw [insertionSort_replicate_append (by norm_num) 49,
        List.take_succ_cons, List.take_replicate]
    norm_num [List.sum_replicate]
  constructor
  · show decide (noiseThresholdOf ((0 : ℚ) :: List.replicate 49 10) 1 < 19/2)
        = true
    rw [hold]
    norm_num
  · show decide
        (noiseThresholdOf (((0 : ℚ) :: List.replicate 49 10).tail ++ [19/2]) 1
          < 19/2) = false
    rw [hnew]
    norm_num

/-- C1 amended: the gate of the capture loop fires iff the reading exceeds
the threshold recomputed *after* the reading has been folded into the
window (the reading is already a member of the window the threshold is
derived from), not the threshold as it stood before the fold. -/
theorem gate_compares_post_update_threshold (w : List ℚ) (mult peak : ℚ) :
    ((captureGate w mult peak).2.2 = true ↔
      noiseThresholdOf (w.tail ++ [peak]) mult < peak) ∧
    (captureGate w mult peak).2.1 = noiseThresholdOf (w.tail ++ [peak]) mult ∧
    peak ∈ (captureGate w mult peak).1 := by
  refine ⟨?_, rfl, ?_⟩
  · simp [captureGate]
  · simp [captureGate]

/-! ## C3: the current_topic setter -/

lemma pyListGet_in_range (l : List Topic) (v : ℤ)
    (h0 : -(l.length : ℤ) ≤ v) (h1 : v < (l.length : ℤ)) :
    pyListGet l v = some (l.getD (v % (l.length : ℤ)).toNat default) := by
  unfold pyListGet
  rcases le_or_lt 0 v with hv | hv
  · rw [if_pos hv]
    have hmod : v % (l.length : ℤ) = v := Int.emod_eq_of_lt hv h1
    rw [hmod]
    exact get?_eq_some_getD _ _ (by omega)
  · rw [if_neg (not_le.mpr hv), if_pos (by omega)]
    have hmod : v % (l.length : ℤ) = (l.length : ℤ) + v := by
      have h2 : (v + (l.length : ℤ) * 1) % (l.length : ℤ) = v % (l.length : ℤ) :=
        Int.add_mul_emod_self_left v (l.length : ℤ) 1
      rw [mul_one] at h2
      rw [← h2, Int.emod_eq_of_lt (by omega) (by omega)]
      omega
    rw [hmod]
    exact get?_eq_some_getD _ _ (by omega)

lemma pyListGet_out_of_range (l : List Topic) (v : ℤ)
    (h : v < -(l.length : ℤ) ∨ (l.length : ℤ) ≤ v) :
    pyListGet l v = none := by
  unfold pyListGet
  rcases h with h | h
  · rw [if_neg (by omega), if_neg (by omega)]
  · rcases le_or_lt 0 v with hv | hv
    · rw [if_pos hv]
      exact List.get?_eq_none.mpr (by omega)
    · omega

/-- C3 counterexample: the claim says every negative index fails, but
`current_topic = -1` succeeds: Python's negative indexing wraps around,
so the topic becomes the catalog's last entry. -/
theorem setCurrentTopic_counterexample :
    setCurrentTopic initState (-1) =
      .ok { initState with topic := trainerTopics.getD 17 default,
                           topic_changed := true } := rfl

/-- C3 amended: the setter fails synchronously (with no state change)
exactly for `v ≥ 18` (for `v = 18` via the index error raised before any
assignment) and for `v < -18`; every `v` in `[-18, 17]` succeeds, with
negative indices wrapping from the end of the 18-topic catalog. -/
theorem setCurrentTopic_amended (s : TrainerState) (v : ℤ) :
    setCurrentTopic s v =
      (if -18 ≤ v ∧ v < 18 then
        .ok { s with topic := trainerTopics.getD (v % 18).toNat default,
                     topic_changed := true }
      else .error ()) := by
  have h18 : (trainerTopics.length : ℤ) = 18 := by norm_num [trainerTopics]
  unfold setCurrentTopic
  by_cases hv : -18 ≤ v ∧ v < 18
  · rw [if_pos hv, if_pos (by omega), pyListGet_in_range _ _ (by omega)
      (by omega), h18]
  · rw [if_neg hv]
    by_cases hv2 : v ≤ (trainerTopics.length : ℤ)
    · rw [if_pos hv2, pyListGet_out_of_range _ _ (by omega)]
    · rw [if_neg hv2]

/-! ## C4: midi/frequency round-trip -/

/-- C4: for every integer midi in `[40, 76]`,
`freq_to_midi (midi_to_freq midi) = midi`. -/
theorem freq_midi_roundtrip (m : ℤ) (h1 : 40 ≤ m) (h2 : m ≤ 76) :
    freq_to_midi (midi_to_freq m) = m := by
  unfold freq_to_midi midi_to_freq
  rw [mul_div_cancel_left₀ _ (by norm_num : (440 : ℝ) ≠ 0),
      Real.logb_rpow (by norm_num) (by norm_num)]
  have hm : (69 : ℝ) + 12 * (((m : ℝ) - 69) / 12) = (m : ℝ) := by ring
  rw [hm, round_intCast]

/-- C4 witness: round trip at midi 60. -/
theorem freq_midi_roundtrip_witness :
    freq_to_midi (midi_to_freq 60) = 60 :=
  freq_midi_roundtrip 60 (by norm_num) (by norm_num)

/-! ## Scheduler selection lemmas (towards C7, C8, C10) -/

lemma getLast?_mem' {α : Type} {l : List α} {a : α}
    (h : l.getLast? = some a) : a ∈ l := by
  cases l with
  | nil => cases h
  | cons b l =>
    rw [List.getLast?_eq_getLast_of_ne_nil (List.cons_ne_nil b l)] at h
    exact Option.some_inj.mp h ▸ List.getLast_mem _

lemma getLastD_mem' {α : Type} [Inhabited α] {l : List α} (h : l ≠ []) :
    l.getLastD default ∈ l := by
  rw [List.getLastD_eq_getLast?, List.getLast?_eq_getLast_of_ne_nil h]
  exact List.getLast_mem h

lemma getLastD_concat' {α : Type} [Inhabited α] (l : List α) (a : α) :
    (l ++ [a]).getLastD default = a := by
  rw [List.getLastD_eq_getLast?, List.getLast?_concat]
  rfl

lemma incFirst_map_fst (l : List (Note × ℕ)) (t : Note) :
    (incFirst l t).map Prod.fst = l.map Prod.fst := by
  induction l with
  | nil => rfl
  | cons p l ih =>
    obtain ⟨n, c⟩ := p
    unfold incFirst
    by_cases h : n = t
    · rw [if_pos h]
      simp
    · rw [if_neg h]
      simp only [List.map_cons, ih]

lemma noteTimes_map_fst (play : List Note) (practiced : List NotePractice) :
    (noteTimes play practiced).map Prod.fst = play := by
  unfold noteTimes
  have key : ∀ (recent : List NotePractice) (acc : List (Note × ℕ)),
      ((recent.foldl (fun a np => incFirst a np.target_note) acc).map
        Prod.fst) = acc.map Prod.fst := by
    intro recent
    induction recent with
    | nil => intro acc; rfl
    | cons np l ih =>
      intro acc
      rw [List.foldl_cons, ih, incFirst_map_fst]
  rw [key]
  simp [Function.comp_def]

/-- `_notes_sorted_by_times_practiced` returns a permutation of
`notes_in_play`. -/
lemma notesSorted_perm (play : List Note) (practiced : List NotePractice) :
    (notesSortedByTimesPracticed play practiced).Perm play := by
  unfold notesSortedByTimesPracticed
  have h1 := (List.perm_insertionSort (fun a b : Note × ℕ => a.2 ≤ b.2)
    (noteTimes play practiced)).map Prod.fst
  rw [noteTimes_map_fst] at h1
  exact h1

/-- Every selected target is in `notes_in_play`. -/
lemma pickTarget_mem {play : List Note} {practiced : List NotePractice}
    {rsel : ℕ} {tgt : Note} (h : pickTarget play practiced rsel = some tgt) :
    tgt ∈ play := by
  simp only [pickTarget] at h
  split_ifs at h with h4 hmem h0 hmem2
  · have h1 := List.get?_mem h
    have h2 := List.erase_subset _ _ h1
    exact (notesSorted_perm play practiced).mem_iff.mp h2
  · exact List.erase_subset _ _ (choiceOf_mem h)
  · exact choiceOf_mem h

/-- When at least one prior attempt is recorded and `notes_in_play` has no
duplicates, the selected target differs from the previous target. -/
lemma pickTarget_ne {play : List Note} {practiced : List NotePractice}
    {rsel : ℕ} {tgt : Note} (hnd : play.Nodup) (hne : practiced ≠ [])
    (h : pickTarget play practiced rsel = some tgt) :
    tgt ≠ (practiced.getLastD default).target_note := by
  simp only [pickTarget] at h
  split_ifs at h with h4 hmem h0 hmem2
  · have hndn : (notesSortedByTimesPracticed play practiced).Nodup :=
      ((notesSorted_perm play practiced).nodup_iff).mpr hnd
    exact ((hndn.mem_erase_iff).mp (List.get?_mem h)).1
  · exact ((hnd.mem_erase_iff).mp (choiceOf_mem h)).1
  · exact absurd (List.length_eq_zero.mp (by omega)) hne

/-! ## Phase-1 (reset / incremental growth) characterization -/

lemma seedThree_perm {notes : List Note} {r0 r1 r2 : ℕ}
    {out : List Note × List Note} (h : seedThree notes r0 r1 r2 = some out) :
    (out.1 ++ out.2).Perm notes := by
  unfold seedThree at h
  obtain ⟨pq1, h1, h⟩ := Option.bind_eq_some.mp h
  obtain ⟨pq2, h2, h3⟩ := Option.bind_eq_some.mp h
  have p1 := moveNote_perm h1
  have p2 := moveNote_perm h2
  have p3 := moveNote_perm h3
  have := p3.trans (p2.trans p1)
  simpa using this

lemma seedThree_lengths {notes : List Note} {r0 r1 r2 : ℕ}
    {out : List Note × List Note} (h : seedThree notes r0 r1 r2 = some out) :
    out.1.length = 3 ∧ out.2.length = notes.length - 3 := by
  unfold seedThree at h
  obtain ⟨pq1, h1, h⟩ := Option.bind_eq_some.mp h
  obtain ⟨pq2, h2, h3⟩ := Option.bind_eq_some.mp h
  obtain ⟨ra, hra, e11, e12⟩ := moveNote_spec h1
  obtain ⟨rb, hrb, e21, e22⟩ := moveNote_spec h2
  obtain ⟨rc, hrc, e31, e32⟩ := moveNote_spec h3
  have l12 : pq1.2.length = notes.length - 1 := by
    rw [e12]; exact List.length_erase_of_mem hra
  have l11 : pq1.1.length = 1 := by rw [e11]; rfl
  have hm1 : 1 ≤ notes.length :=
    List.length_pos.mpr (List.ne_nil_of_mem hra)
  have l22 : pq2.2.length = notes.length - 2 := by
    rw [e22, List.length_erase_of_mem hrb, l12]
    omega
  have hm2 : 2 ≤ notes.length := by
    have := List.length_pos.mpr (List.ne_nil_of_mem hrb)
    omega
  have l21 : pq2.1.length = 2 := by
    rw [e21, List.length_append, l11]; rfl
  have hm3 : 3 ≤ notes.length := by
    have := List.length_pos.mpr (List.ne_nil_of_mem hrc)
    omega
  constructor
  · rw [e31, List.length_append, l21]; rfl
  · rw [e32, List.length_erase_of_mem hrc, l22]
    omega

lemma newNotePhase1_flags {s : TrainerState} {r0 r1 r2 : ℕ}
    {out : List Note × List Note × List NotePractice × Bool × Bool}
    (h : newNotePhase1 s r0 r1 r2 = some out) :
    out.2.2.2.1 = false ∧ out.2.2.2.2 = false := by
  unfold newNotePhase1 at h
  by_cases hch : s.topic_changed = true ∨ s.add_notes_method_changed = true
  · rw [if_pos hch] at h
    split_ifs at h with hm0 hm1
    · obtain ⟨pq, hpq, hout⟩ := Option.map_eq_some'.mp h
      rw [← hout]
      exact ⟨rfl, rfl⟩
    · cases h; exact ⟨rfl, rfl⟩
    · cases h; exact ⟨rfl, rfl⟩
  · rw [if_neg hch] at h
    have hc1 : s.topic_changed = false := by
      revert hch; cases s.topic_changed <;> simp
    have hc2 : s.add_notes_method_changed = false := by
      revert hch; cases s.add_notes_method_changed <;> simp
    split_ifs at h with hg
    · obtain ⟨pq, hpq, hout⟩ := Option.map_eq_some'.mp h
      rw [← hout]
      exact ⟨hc1, hc2⟩
    · cases h; exact ⟨hc1, hc2⟩

lemma newNotePhase1_reset {s : TrainerState} {r0 r1 r2 : ℕ}
    {out : List Note × List Note × List NotePractice × Bool × Bool}
    (hch : s.topic_changed = true ∨ s.add_notes_method_changed = true)
    (h : newNotePhase1 s r0 r1 r2 = some out) :
    out.2.2.1 = [] ∧
    (s.add_notes_method = ADD_NOTES_INCREMENTALLY →
      (out.1 ++ out.2.1).Perm s.topic.notes) ∧
    (s.add_notes_method = ADD_NOTES_ALL_AT_ONCE →
      out.1 = s.topic.notes ∧ out.2.1 = []) := by
  unfold newNotePhase1 at h
  rw [if_pos hch] at h
  split_ifs at h with hm0 hm1
  · obtain ⟨pq, hpq, hout⟩ := Option.map_eq_some'.mp h
    rw [← hout]
    refine ⟨rfl, fun _ => by simpa using seedThree_perm hpq, fun hm1' => ?_⟩
    rw [hm0] at hm1'
    exact absurd hm1' (by simp [ADD_NOTES_INCREMENTALLY, ADD_NOTES_ALL_AT_ONCE])
  · cases h
    exact ⟨rfl, fun h0 => absurd h0 hm0, fun _ => ⟨rfl, rfl⟩⟩
  · cases h
    exact ⟨rfl, fun h0 => absurd h0 hm0, fun h1 => absurd h1 hm1⟩

lemma newNotePhase1_reset_inc_lengths {s : TrainerState} {r0 r1 r2 : ℕ}
    {out : List Note × List Note × List NotePractice × Bool × Bool}
    (hch : s.topic_changed = true ∨ s.add_notes_method_changed = true)
    (hm : s.add_notes_method = ADD_NOTES_INCREMENTALLY)
    (h : newNotePhase1 s r0 r1 r2 = some out) :
    out.1.length = 3 ∧ out.2.1.length = s.topic.notes.length - 3 ∧
      out.2.2.1 = [] := by
  unfold newNotePhase1 at h
  rw [if_pos hch, if_pos hm] at h
  obtain ⟨pq, hpq, hout⟩ := Option.map_eq_some'.mp h
  obtain ⟨l1, l2⟩ := seedThree_lengths hpq
  rw [← hout]
  exact ⟨l1, l2, rfl⟩

lemma newNotePhase1_nochange {s : TrainerState} {r0 r1 r2 : ℕ}
    {out : List Note × List Note × List NotePractice × Bool × Bool}
    (hc1 : s.topic_changed = false) (hc2 : s.add_notes_method_changed = false)
    (h : newNotePhase1 s r0 r1 r2 = some out) :
    out.2.2.1 = s.practiced_notes ∧
    ((0 < s.practiced_notes.length ∧
        s.practiced_notes.length % s.add_notes_increment = 0 ∧
        0 < s.notes_in_queue.length) →
      ∃ r ∈ s.notes_in_queue, out.1 = s.notes_in_play ++ [r] ∧
        out.2.1 = s.notes_in_queue.erase r) ∧
    (¬(0 < s.practiced_notes.length ∧
        s.practiced_notes.length % s.add_notes_increment = 0 ∧
        0 < s.notes_in_queue.length) →
      out.1 = s.notes_in_play ∧ out.2.1 = s.notes_in_queue) := by
  unfold newNotePhase1 at h
  rw [if_neg (by simp [hc1, hc2])] at h
  split_ifs at h with hg
  · obtain ⟨pq, hpq, hout⟩ := Option.map_eq_some'.mp h
    obtain ⟨r, hr, e1, e2⟩ := moveNote_spec hpq
    rw [← hout]
    exact ⟨rfl, fun _ => ⟨r, hr, e1, e2⟩, fun hng => absurd hg hng⟩
  · cases h
    exact ⟨rfl, fun hgg => absurd hgg hg, fun _ => ⟨rfl, rfl⟩⟩

lemma newNotePractice_spec {s s' : TrainerState} {r0 r1 r2 rsel : ℕ}
    (h : newNotePractice s r0 r1 r2 rsel = some s') :
    ∃ out tgt, newNotePhase1 s r0 r1 r2 = some out ∧
      pickTarget out.1 out.2.2.1 rsel = some tgt ∧
      s' = { s with
             notes_in_play := out.1
             notes_in_queue := out.2.1
             practiced_notes := out.2.2.1 ++ [NotePractice.mk0 tgt]
             topic_changed := out.2.2.2.1
             add_notes_method_changed := out.2.2.2.2 } := by
  unfold newNotePractice at h
  obtain ⟨out, h1, h2⟩ := Option.bind_eq_some.mp h
  obtain ⟨tgt, h3, h4⟩ := Option.map_eq_some'.mp h2
  exact ⟨out, tgt, h1, h3, h4.symm⟩

/-! ## The scheduler invariant and its preservation -/

lemma trainerTopics_nodup : ∀ t ∈ trainerTopics, t.notes.Nodup := by decide

lemma schedInv_init : SchedInv initState := by
  refine ⟨Or.inl rfl, by decide, ?_⟩
  rintro ⟨h1, -⟩
  exact absurd h1 (by decide)

lemma except_toOption_some {ε α : Type} {e : Except ε α} {a : α}
    (h : e.toOption = some a) : e = .ok a := by
  cases e with
  | ok b => simpa [Except.toOption] using h
  | error b => simp [Except.toOption] at h

lemma setStartTimestamp_target {p q : NotePractice} {t : ℚ}
    (h : p.setStartTimestamp t = .ok q) : q.target_note = p.target_note := by
  unfold NotePractice.setStartTimestamp at h
  split_ifs at h
  cases h
  rfl

lemma setSuccessTimestamp_target {p q : NotePractice} {t : ℚ}
    (h : p.setSuccessTimestamp t = .ok q) : q.target_note = p.target_note := by
  unfold NotePractice.setSuccessTimestamp at h
  split_ifs at h
  cases h
  rfl

lemma setComplete_target {p q : NotePractice} {v : Bool}
    (h : p.setComplete v = .ok q) : q.target_note = p.target_note := by
  unfold NotePractice.setComplete at h
  split_ifs at h
  cases h
  rfl

lemma setTerminate_target {p q : NotePractice} {v : Bool}
    (h : p.setTerminate v = .ok q) : q.target_note = p.target_note := by
  unfold NotePractice.setTerminate at h
  split_ifs at h
  cases h
  rfl

/-- An operation that keeps topic, method, flags, play and queue, and only
rewrites attempts without changing their targets, preserves the invariant. -/
lemma schedInv_of_eqs {s s' : TrainerState} (h : SchedInv s)
    (hm : s'.add_notes_method = s.add_notes_method)
    (ht : s'.topic = s.topic)
    (htc : s'.topic_changed = s.topic_changed)
    (hmc : s'.add_notes_method_changed = s.add_notes_method_changed)
    (hp : s'.notes_in_play = s.notes_in_play)
    (hq : s'.notes_in_queue = s.notes_in_queue)
    (htg : ∀ np ∈ s'.practiced_notes, ∃ np0 ∈ s.practiced_notes,
        np.target_note = np0.target_note) :
    SchedInv s' := by
  refine ⟨hm ▸ h.1, ht ▸ h.2.1, ?_⟩
  rintro ⟨h1, h2⟩
  rw [htc] at h1
  rw [hmc] at h2
  obtain ⟨h3, h4⟩ := h.2.2 ⟨h1, h2⟩
  constructor
  · rw [hp, hq, ht]
    exact h3
  · intro np hnp
    obtain ⟨np0, hnp0, he⟩ := htg np hnp
    rw [hp, he]
    exact h4 np0 hnp0

lemma replaceLast_targets {l : List NotePractice} {np np1 : NotePractice}
    (hl : l.getLast? = some np)
    (he : np1.target_note = np.target_note) :
    ∀ x ∈ l.dropLast ++ [np1], ∃ np0 ∈ l, x.target_note = np0.target_note := by
  intro x hx
  rcases List.mem_append.mp hx with hd | hs
  · exact ⟨x, List.dropLast_subset _ hd, rfl⟩
  · rw [List.mem_singleton.mp hs]
    exact ⟨np, getLast?_mem' hl, he⟩

lemma schedInv_setCurrentTopic {s s' : TrainerState} {v : ℤ}
    (hop : setCurrentTopic s v = .ok s') (h : SchedInv s) : SchedInv s' := by
  unfold setCurrentTopic at hop
  split_ifs at hop with h1
  cases hg : pyListGet trainerTopics v with
  | none => rw [hg] at hop; cases hop
  | some t =>
    rw [hg] at hop
    cases hop
    refine ⟨h.1, ?_, ?_⟩
    · -- the new topic comes from the catalog
      unfold pyListGet at hg
      split_ifs at hg
      · exact List.get?_mem hg
      · exact List.get?_mem hg
    · rintro ⟨h2, -⟩
      cases h2

lemma schedInv_setAddNotesMethod {s s' : TrainerState} {v : ℕ}
    (hop : setAddNotesMethod s v = .ok s') (h : SchedInv s) : SchedInv s' := by
  unfold setAddNotesMethod at hop
  split_ifs at hop with h1 hne
  · cases hop
    refine ⟨h1, h.2.1, ?_⟩
    rintro ⟨-, h3⟩
    cases h3
  · cases hop
    refine ⟨h1, h.2.1, ?_⟩
    rintro ⟨h2, h3⟩
    exact h.2.2 ⟨h2, h3⟩

lemma schedInv_setThresholdMultiplier {s s' : TrainerState} {v : ℚ}
    (hop : setThresholdMultiplier s v = .ok s') (h : SchedInv s) :
    SchedInv s' := by
  unfold setThresholdMultiplier at hop
  split_ifs at hop
  cases hop
  exact ⟨h.1, h.2.1, fun hf => h.2.2 hf⟩

lemma schedInv_setAddNotesIncrement {s s' : TrainerState} {v : ℕ}
    (hop : setAddNotesIncrement s v = .ok s') (h : SchedInv s) :
    SchedInv s' := by
  unfold setAddNotesIncrement at hop
  split_ifs at hop
  cases hop
  exact ⟨h.1, h.2.1, fun hf => h.2.2 hf⟩

lemma schedInv_startCaptureOp {s s' : TrainerState} {t : ℚ}
    (hop : startCaptureOp s t = some s') (h : SchedInv s) : SchedInv s' := by
  unfold startCaptureOp at hop
  obtain ⟨np, h1, h2⟩ := Option.bind_eq_some.mp hop
  obtain ⟨np1, h3, h4⟩ := Option.map_eq_some'.mp h2
  cases h4
  exact schedInv_of_eqs h rfl rfl rfl rfl rfl rfl
    (replaceLast_targets h1 (setStartTimestamp_target (except_toOption_some h3)))

lemma schedInv_killOp {s s' : TrainerState}
    (hop : killOp s = some s') (h : SchedInv s) : SchedInv s' := by
  unfold killOp at hop
  split_ifs at hop with he
  · cases hop
    exact h
  · obtain ⟨np1, h3, h4⟩ := Option.map_eq_some'.mp hop
    cases h4
    have hne : s.practiced_notes ≠ [] := by
      simpa [List.isEmpty_iff] using he
    have hlast : s.practiced_notes.getLast? =
        some (s.practiced_notes.getLastD default) := by
      rw [List.getLastD_eq_getLast?, List.getLast?_eq_getLast_of_ne_nil hne]
      rfl
    exact schedInv_of_eqs h rfl rfl rfl rfl rfl rfl
      (replaceLast_targets hlast
        (setTerminate_target (except_toOption_some h3)))

lemma schedInv_captureBlock {s s' : TrainerState} {f : ℝ} {p t : ℚ}
    (hop : captureBlock s f p t = some s') (h : SchedInv s) : SchedInv s' := by
  unfold captureBlock at hop
  obtain ⟨np, h1, h2⟩ := Option.bind_eq_some.mp hop
  dsimp only at h2
  split_ifs at h2 with hgate hmidi
  · obtain ⟨np2, h3, h4⟩ := Option.bind_eq_some.mp h2
    obtain ⟨np3, h5, h6⟩ := Option.map_eq_some'.mp h4
    cases h6
    refine schedInv_of_eqs h rfl rfl rfl rfl rfl rfl
      (replaceLast_targets h1 ?_)
    rw [setComplete_target (except_toOption_some h5),
        setSuccessTimestamp_target (except_toOption_some h3)]
    rfl
  · cases h2
    exact schedInv_of_eqs h rfl rfl rfl rfl rfl rfl
      (replaceLast_targets h1 rfl)
  · cases h2
    exact schedInv_of_eqs h rfl rfl rfl rfl rfl rfl
      (fun np' hnp' => ⟨np', hnp', rfl⟩)

lemma schedInv_newNotePractice {s s' : TrainerState} {r0 r1 r2 rsel : ℕ}
    (hop : newNotePractice s r0 r1 r2 rsel = some s') (h : SchedInv s) :
    SchedInv s' := by
  obtain ⟨out, tgt, h1, h2, h3⟩ := newNotePractice_spec hop
  have htgt_mem : tgt ∈ out.1 := pickTarget_mem h2
  subst h3
  refine ⟨h.1, h.2.1, ?_⟩
  rintro ⟨-, -⟩
  by_cases hch : s.topic_changed = true ∨ s.add_notes_method_changed = true
  · obtain ⟨hpr, hinc, hall⟩ := newNotePhase1_reset hch h1
    have htargets : ∀ np ∈ out.2.2.1 ++ [NotePractice.mk0 tgt],
        np.target_note ∈ out.1 := by
      intro np hnp
      rw [hpr] at hnp
      simp only [List.nil_append, List.mem_singleton] at hnp
      rw [hnp]
      exact htgt_mem
    rcases h.1 with hm | hm
    · exact ⟨hinc hm, htargets⟩
    · obtain ⟨e1, e2⟩ := hall hm
      refine ⟨?_, htargets⟩
      rw [e1, e2]
      simp
  · have hc1 : s.topic_changed = false := by
      revert hch; cases s.topic_changed <;> simp
    have hc2 : s.add_notes_method_changed = false := by
      revert hch; cases s.add_notes_method_changed <;> simp
    obtain ⟨hperm0, htg0⟩ := h.2.2 ⟨hc1, hc2⟩
    obtain ⟨hpr, hgrow, hngrow⟩ := newNotePhase1_nochange hc1 hc2 h1
    by_cases hg : (0 < s.practiced_notes.length ∧
        s.practiced_notes.length % s.add_notes_increment = 0 ∧
        0 < s.notes_in_queue.length)
    · obtain ⟨r, hr, e1, e2⟩ := hgrow hg
      constructor
      · have hp : (out.1 ++ out.2.1).Perm
            (s.notes_in_play ++ s.notes_in_queue) := by
          rw [e1, e2, List.append_assoc, List.singleton_append]
          exact List.Perm.append_left _ (List.perm_cons_erase hr).symm
        exact hp.trans hperm0
      · intro np hnp
        rw [hpr] at hnp
        rcases List.mem_append.mp hnp with hm1 | hm2
        · rw [e1]
          exact List.mem_append_left _ (htg0 np hm1)
        · rw [List.mem_singleton.mp hm2]
          exact htgt_mem
    · obtain ⟨e1, e2⟩ := hngrow hg
      rw [e1, e2, hpr]
      refine ⟨hperm0, ?_⟩
      intro np hnp
      rcases List.mem_append.mp hnp with hm1 | hm2
      · exact htg0 np hm1
      · rw [List.mem_singleton.mp hm2]
        exact e1 ▸ htgt_mem

/-- Every reachable scheduler state satisfies the invariant. -/
lemma reachable_schedInv {s : TrainerState} (h : Reachable s) : SchedInv s := by
  induction h with
  | base => exact schedInv_init
  | step_topic _ hop ih => exact schedInv_setCurrentTopic hop ih
  | step_method _ hop ih => exact schedInv_setAddNotesMethod hop ih
  | step_mult _ hop ih => exact schedInv_setThresholdMultiplier hop ih
  | step_inc _ hop ih => exact schedInv_setAddNotesIncrement hop ih
  | step_new _ hop ih => exact schedInv_newNotePractice hop ih
  | step_start _ hop ih => exact schedInv_startCaptureOp hop ih
  | step_block _ hop ih => exact schedInv_captureBlock hop ih
  | step_kill _ hop ih => exact schedInv_killOp hop ih

/-! ## C10: play/queue partition the topic -/

/-- C10: after every `new_note_practice` call from a reachable state,
`notes_in_play` and `notes_in_queue` are disjoint and their concatenation
is a permutation of the current topic's note list: every topic note is in
exactly one of the two collections and none appears twice. -/
theorem play_queue_partition {s s' : TrainerState} {r0 r1 r2 rsel : ℕ}
    (hr : Reachable s) (hop : newNotePractice s r0 r1 r2 rsel = some s') :
    (s'.notes_in_play ++ s'.notes_in_queue).Perm s'.topic.notes ∧
    (s'.notes_in_play ++ s'.notes_in_queue).Nodup ∧
    ∀ n ∈ s'.notes_in_play, n ∉ s'.notes_in_queue := by
  have hinv := reachable_schedInv (Reachable.step_new hr hop)
  obtain ⟨out, tgt, h1, h2, h3⟩ := newNotePractice_spec hop
  have hflags := newNotePhase1_flags h1
  have hfl : s'.topic_changed = false ∧ s'.add_notes_method_changed = false := by
    rw [h3]
    exact hflags
  obtain ⟨hperm, -⟩ := hinv.2.2 hfl
  have hnd : (s'.notes_in_play ++ s'.notes_in_queue).Nodup :=
    (hperm.nodup_iff).mpr (trainerTopics_nodup _ hinv.2.1)
  refine ⟨hperm, hnd, ?_⟩
  intro n hn hqn
  exact (List.nodup_append.mp hnd).2.2 hn hqn

/-- C10 witness: the partition holds after the very first call. -/
theorem play_queue_partition_witness :
    (afterFirstCall.notes_in_play ++ afterFirstCall.notes_in_queue).Perm
      afterFirstCall.topic.notes ∧
    (afterFirstCall.notes_in_play ++ afterFirstCall.notes_in_queue).Nodup ∧
    ∀ n ∈ afterFirstCall.notes_in_play, n ∉ afterFirstCall.notes_in_queue :=
  play_queue_partition Reachable.base
    (show newNotePractice initState 0 0 0 0 = some afterFirstCall from rfl)

/-! ## C7: no immediate target repetition -/

/-- C7: for every selection made from a reachable state with at least one
prior attempt since the last reset (changed flags consumed) and at least
two notes in play, the new attempt's target differs from the immediately
preceding attempt's target. -/
theorem no_immediate_repeat {s s' : TrainerState} {r0 r1 r2 rsel : ℕ}
    (hr : Reachable s)
    (hc1 : s.topic_changed = false) (hc2 : s.add_notes_method_changed = false)
    (hne : s.practiced_notes ≠ []) (hlen : 2 ≤ s.notes_in_play.length)
    (hop : newNotePractice s r0 r1 r2 rsel = some s') :
    (s'.practiced_notes.getLastD default).target_note ≠
      (s.practiced_notes.getLastD default).target_note := by
  clear hlen
  have hinv := reachable_schedInv hr
  obtain ⟨hperm0, htg0⟩ := hinv.2.2 ⟨hc1, hc2⟩
  have hndpq : (s.notes_in_play ++ s.notes_in_queue).Nodup :=
    (hperm0.nodup_iff).mpr (trainerTopics_nodup _ hinv.2.1)
  obtain ⟨out, tgt, h1, h2, h3⟩ := newNotePractice_spec hop
  obtain ⟨hpr, hgrow, hngrow⟩ := newNotePhase1_nochange hc1 hc2 h1
  have hnd1 : out.1.Nodup := by
    by_cases hg : (0 < s.practiced_notes.length ∧
        s.practiced_notes.length % s.add_notes_increment = 0 ∧
        0 < s.notes_in_queue.length)
    · obtain ⟨r, hrq, e1, e2⟩ := hgrow hg
      rw [e1]
      rcases List.nodup_append.mp hndpq with ⟨hnp, hnq, hdisj⟩
      refine List.nodup_append.mpr ⟨hnp, List.nodup_singleton r, ?_⟩
      intro a ha hb
      rw [List.mem_singleton.mp hb] at ha
      exact hdisj ha hrq
    · obtain ⟨e1, e2⟩ := hngrow hg
      rw [e1]
      exact (List.nodup_append.mp hndpq).1
  have hne2 : out.2.2.1 ≠ [] := by rw [hpr]; exact hne
  have hne' := pickTarget_ne hnd1 hne2 h2
  have hlast' : s'.practiced_notes.getLastD default = NotePractice.mk0 tgt := by
    rw [h3]
    exact getLastD_concat' _ _
  rw [hlast']
  rw [hpr] at hne'
  exact hne'

/-- C7 witness: the second selection avoids the first target. -/
theorem no_immediate_repeat_witness :
    (afterSecondCall.practiced_notes.getLastD default).target_note ≠
      (afterFirstCall.practiced_notes.getLastD default).target_note :=
  no_immediate_repeat
    (Reachable.step_new Reachable.base
      (show newNotePractice initState 0 0 0 0 = some afterFirstCall from rfl))
    rfl rfl (by decide) (by decide)
    (show newNotePractice afterFirstCall 0 0 0 0 = some afterSecondCall
      from rfl)

/-! ## C8: incremental growth schedule -/

lemma scenario8_state {k : ℕ} {s0 s : TrainerState}
    (h : RunsFrom k s0 s) (hs0 : s0 = scenario8Start) :
    (k = 0 → s = scenario8Start) ∧
    (1 ≤ k →
      s.topic_changed = false ∧ s.add_notes_method_changed = false ∧
      s.add_notes_increment = 10 ∧
      s.practiced_notes.length = k ∧
      s.notes_in_play.length = 3 + min 5 ((k - 1) / 10) ∧
      s.notes_in_queue.length = 5 - min 5 ((k - 1) / 10)) := by
  induction h with
  | zero sz => exact ⟨fun _ => hs0, fun hk => absurd hk (by omega)⟩
  | @succ k sz s1 s2 r0 r1 r2 rsel hrun hstep ih =>
    refine ⟨fun hk => absurd hk (by omega), fun _ => ?_⟩
    obtain ⟨out, tgt, h1, h2, h3⟩ := newNotePractice_spec hstep
    have hflags := newNotePhase1_flags h1
    by_cases hk0 : k = 0
    · subst hk0
      have hs1 : s1 = scenario8Start := (ih hs0).1 rfl
      subst hs1
      obtain ⟨l1, l2, lpr⟩ := newNotePhase1_reset_inc_lengths (Or.inl rfl)
        rfl h1
      have hlen8 : scenario8Start.topic.notes.length = 8 := by decide
      rw [hlen8] at l2
      rw [h3]
      refine ⟨hflags.1, hflags.2, rfl, ?_, ?_, ?_⟩
      · simp [lpr]
      · show out.1.length = 3 + min 5 ((0 + 1 - 1) / 10)
        rw [l1]
        omega
      · show out.2.1.length = 5 - min 5 ((0 + 1 - 1) / 10)
        rw [l2]
        omega
    · have hk1 : 1 ≤ k := by omega
      obtain ⟨f1, f2, finc, fpr, fplay, fqueue⟩ := (ih hs0).2 hk1
      obtain ⟨hpr, hgrow, hngrow⟩ := newNotePhase1_nochange f1 f2 h1
      rw [h3]
      refine ⟨hflags.1, hflags.2, finc, ?_, ?_, ?_⟩
      · show (out.2.2.1 ++ [NotePractice.mk0 tgt]).length = k + 1
        rw [List.length_append, hpr, fpr]
        rfl
      · show out.1.length = 3 + min 5 ((k + 1 - 1) / 10)
        by_cases hg : (0 < s1.practiced_notes.length ∧
            s1.practiced_notes.length % s1.add_notes_increment = 0 ∧
            0 < s1.notes_in_queue.length)
        · obtain ⟨r, hrq, e1, e2⟩ := hgrow hg
          rw [e1, List.length_append, fplay]
          rw [fpr, finc] at hg
          rw [fqueue] at hg
          obtain ⟨-, hmod, hq⟩ := hg
          show 3 + min 5 ((k - 1) / 10) + 1 = 3 + min 5 ((k + 1 - 1) / 10)
          omega
        · obtain ⟨e1, e2⟩ := hngrow hg
          rw [e1, fplay]
          rw [fpr, finc, fqueue] at hg
          omega
      · show out.2.1.length = 5 - min 5 ((k + 1 - 1) / 10)
        by_cases hg : (0 < s1.practiced_notes.length ∧
            s1.practiced_notes.length % s1.add_notes_increment = 0 ∧
            0 < s1.notes_in_queue.length)
        · obtain ⟨r, hrq, e1, e2⟩ := hgrow hg
          rw [e2, List.length_erase_of_mem hrq, fqueue]
          rw [fpr, finc] at hg
          rw [fqueue] at hg
          obtain ⟨-, hmod, hq⟩ := hg
          omega
        · obtain ⟨e1, e2⟩ := hngrow hg
          rw [e2, fqueue]
          rw [fpr, finc, fqueue] at hg
          omega

/-- C8: (general part) with the topic and mode unchanged since the last
reset, a `new_note_practice` call moves exactly one note from
`notes_in_queue` to `notes_in_play` precisely when the number of recorded
attempts is a positive multiple of `add_notes_increment` and the queue is
non-empty, and moves nothing otherwise; (scenario part) with increment 10,
the 8-note topic and 3 seeded notes, after the k-th consecutive call the
play set has `3 + min 5 ((k-1)/10)` notes and the queue `5 - min 5
((k-1)/10)` — so the play set grows by exactly one at the calls following
attempts 10, 20, 30, 40, 50 and the queue is empty thereafter with no
further growth. -/
theorem incremental_growth_schedule :
    (∀ (s s' : TrainerState) (r0 r1 r2 rsel : ℕ),
      s.topic_changed = false → s.add_notes_method_changed = false →
      newNotePractice s r0 r1 r2 rsel = some s' →
      (((0 < s.practiced_notes.length ∧
          s.practiced_notes.length % s.add_notes_increment = 0 ∧
          0 < s.notes_in_queue.length) →
        ∃ r ∈ s.notes_in_queue, s'.notes_in_play = s.notes_in_play ++ [r] ∧
          s'.notes_in_queue = s.notes_in_queue.erase r) ∧
      (¬(0 < s.practiced_notes.length ∧
          s.practiced_notes.length % s.add_notes_increment = 0 ∧
          0 < s.notes_in_queue.length) →
        s'.notes_in_play = s.notes_in_play ∧
        s'.notes_in_queue = s.notes_in_queue))) ∧
    (∀ (k : ℕ) (s : TrainerState), RunsFrom k scenario8Start s → 1 ≤ k →
      s.notes_in_play.length = 3 + min 5 ((k - 1) / 10) ∧
      s.notes_in_queue.length = 5 - min 5 ((k - 1) / 10) ∧
      s.practiced_notes.length = k) := by
  constructor
  · intro s s' r0 r1 r2 rsel hc1 hc2 hop
    obtain ⟨out, tgt, h1, h2, h3⟩ := newNotePractice_spec hop
    obtain ⟨hpr, hgrow, hngrow⟩ := newNotePhase1_nochange hc1 hc2 h1
    subst h3
    exact ⟨fun hg => hgrow hg, fun hg => hngrow hg⟩
  · intro k s h hk
    obtain ⟨-, -, -, hpr, hplay, hqueue⟩ := (scenario8_state h rfl).2 hk
    exact ⟨hplay, hqueue, hpr⟩

/-- C8 witness: no growth at the second call from a fresh topic, and the
seeded sizes after the first scenario call. -/
theorem incremental_growth_schedule_witness :
    (afterSecondCall.notes_in_play = afterFirstCall.notes_in_play ∧
      afterSecondCall.notes_in_queue = afterFirstCall.notes_in_queue) ∧
    (scenario8After1.notes_in_play.length = 3 + min 5 ((1 - 1) / 10) ∧
     scenario8After1.notes_in_queue.length = 5 - min 5 ((1 - 1) / 10) ∧
     scenario8After1.practiced_notes.length = 1) := by
  constructor
  · exact (incremental_growth_schedule.1 afterFirstCall afterSecondCall
      0 0 0 0 rfl rfl rfl).2 (by decide)
  · exact incremental_growth_schedule.2 1 scenario8After1
      (RunsFrom.succ (RunsFrom.zero scenario8Start)
        (show newNotePractice scenario8Start 0 0 0 0 = some scenario8After1
          from rfl))
      (by norm_num)

/-! ## C9: the FFT band restriction -/

lemma freqStep_pos : (0:ℝ) < freqStep := by
  unfold freqStep
  norm_num

lemma two_rpow_pos (y : ℝ) : (0:ℝ) < (2:ℝ) ^ y :=
  Real.rpow_pos_of_pos (by norm_num) y

lemma two_rpow_pow' (y c : ℝ) (n : ℕ) (h : c * (n:ℝ) = y) :
    ((2:ℝ) ^ c) ^ n = (2:ℝ) ^ y := by
  rw [← Real.rpow_natCast ((2:ℝ) ^ c) n,
      ← Real.rpow_mul (by norm_num : (0:ℝ) ≤ 2), h]

lemma midi40_eq : midi_to_freq MIDI_MIN = 440 * (2:ℝ) ^ ((-29 : ℝ)/12) := by
  unfold midi_to_freq MIDI_MIN
  norm_num

lemma midi76_eq : midi_to_freq MIDI_MAX = 440 * (2:ℝ) ^ ((7 : ℝ)/12) := by
  unfold midi_to_freq MIDI_MAX
  norm_num

lemma midi40_lb : (61/2 : ℝ) * freqStep < midi_to_freq MIDI_MIN := by
  rw [midi40_eq, mul_comm (440:ℝ),
      show (61/2 : ℝ) * freqStep = (61/2 * freqStep / 440) * 440 from by ring]
  apply mul_lt_mul_of_pos_right _ (by norm_num : (0:ℝ) < 440)
  apply lt_of_pow_lt_pow_left₀ 12 (le_of_lt (two_rpow_pos _))
  rw [two_rpow_pow' (-29) ((-29 : ℝ)/12) 12 (by norm_num),
      show ((-29:ℝ)) = -((29:ℕ):ℝ) from by norm_num,
      Real.rpow_neg (by norm_num : (0:ℝ) ≤ 2), Real.rpow_natCast]
  unfold freqStep
  norm_num

lemma midi40_ub : midi_to_freq MIDI_MIN < (63/2 : ℝ) * freqStep := by
  rw [midi40_eq, mul_comm (440:ℝ),
      show (63/2 : ℝ) * freqStep = (63/2 * freqStep / 440) * 440 from by ring]
  apply mul_lt_mul_of_pos_right _ (by norm_num : (0:ℝ) < 440)
  apply lt_of_pow_lt_pow_left₀ 12 (by unfold freqStep; norm_num)
  rw [two_rpow_pow' (-29) ((-29 : ℝ)/12) 12 (by norm_num),
      show ((-29:ℝ)) = -((29:ℕ):ℝ) from by norm_num,
      Real.rpow_neg (by norm_num : (0:ℝ) ≤ 2), Real.rpow_natCast]
  unfold freqStep
  norm_num

lemma midi76_lb : (489/2 : ℝ) * freqStep < midi_to_freq MIDI_MAX := by
  rw [midi76_eq, mul_comm (440:ℝ),
      show (489/2 : ℝ) * freqStep = (489/2 * freqStep / 440) * 440 from by
        ring]
  apply mul_lt_mul_of_pos_right _ (by norm_num : (0:ℝ) < 440)
  apply lt_of_pow_lt_pow_left₀ 12 (le_of_lt (two_rpow_pos _))
  rw [two_rpow_pow' (7) ((7 : ℝ)/12) 12 (by norm_num),
      show ((7:ℝ)) = ((7:ℕ):ℝ) from by norm_num, Real.rpow_natCast]
  unfold freqStep
  norm_num

lemma midi76_ub : midi_to_freq MIDI_MAX < (491/2 : ℝ) * freqStep := by
  rw [midi76_eq, mul_comm (440:ℝ),
      show (491/2 : ℝ) * freqStep = (491/2 * freqStep / 440) * 440 from by
        ring]
  apply mul_lt_mul_of_pos_right _ (by norm_num : (0:ℝ) < 440)
  apply lt_of_pow_lt_pow_left₀ 12 (by unfold freqStep; norm_num)
  rw [two_rpow_pow' (7) ((7 : ℝ)/12) 12 (by norm_num),
      show ((7:ℝ)) = ((7:ℕ):ℝ) from by norm_num, Real.rpow_natCast]
  unfold freqStep
  norm_num

lemma argminIdx_zero (g : ℕ → ℝ) : argminIdx g 0 = 0 := rfl

open scoped Classical in
lemma argminIdx_succ (g : ℕ → ℝ) (n : ℕ) :
    argminIdx g (n+1) =
      if g n < g (argminIdx g n) then n else argminIdx g n := by
  unfold argminIdx
  rw [List.range_succ, List.foldl_append]
  rfl

lemma argminIdx_lt (g : ℕ → ℝ) (n : ℕ) (h : 0 < n) : argminIdx g n < n := by
  induction n with
  | zero => omega
  | succ n ih =>
    rw [argminIdx_succ]
    split_ifs with hc
    · omega
    · rcases Nat.eq_zero_or_pos n with h0 | hp
      · subst h0
        rw [argminIdx_zero]
        norm_num
      · exact Nat.lt_succ_of_lt (ih hp)

lemma argminIdx_eq_of_min (g : ℕ → ℝ) (n j : ℕ) (hj : j < n)
    (hmin : ∀ i < n, i ≠ j → g j < g i) : argminIdx g n = j := by
  induction n with
  | zero => omega
  | succ n ih =>
    rcases Nat.lt_succ_iff_lt_or_eq.mp hj with hjn | hje
    · have hn : argminIdx g n = j :=
        ih hjn (fun i hi hij => hmin i (by omega) hij)
      rw [argminIdx_succ, hn, if_neg]
      exact not_lt.mpr (le_of_lt (hmin n (by omega) (by omega)))
    · subst hje
      rw [argminIdx_succ]
      rcases Nat.eq_zero_or_pos j with h0 | hp
      · subst h0
        split_ifs <;> rfl
      · have hb := argminIdx_lt g j hp
        rw [if_pos]
        exact hmin (argminIdx g j) (by omega) (by omega)

/-- The nearest-bin lookup: when the target frequency lies strictly within
half a bin width of grid point `j` (with `j` in the positive-frequency
half), the argmin over all 16384 bins is exactly `j`. -/
lemma argmin_grid (t : ℝ) (j : ℕ) (hj : j < 8192)
    (hlow : (j:ℝ) * freqStep - freqStep/2 < t)
    (hhigh : t < (j:ℝ) * freqStep + freqStep/2) :
    argminIdx (fun i => |fft_freqs i - t|) SAMPLE_SIZE = j := by
  have hs := freqStep_pos
  have hSS : SAMPLE_SIZE = 16384 := by norm_num [SAMPLE_SIZE]
  apply argminIdx_eq_of_min
  · omega
  · intro i hi hij
    rw [hSS] at hi
    show |fft_freqs j - t| < |fft_freqs i - t|
    have hfj : fft_freqs j = (j:ℝ) * freqStep := by
      unfold fft_freqs
      rw [if_pos hj]
    have hj_close : |fft_freqs j - t| < freqStep/2 := by
      rw [hfj, abs_lt]
      constructor <;> linarith
    have hfar : freqStep/2 ≤ |fft_freqs i - t| := by
      by_cases hi8 : i < 8192
      · have hfi : fft_freqs i = (i:ℝ) * freqStep := by
          unfold fft_freqs
          rw [if_pos hi8]
        rcases lt_or_gt_of_ne hij with hlt | hgt
        · have hc : (i:ℝ) + 1 ≤ (j:ℝ) := by exact_mod_cast hlt
          have hmul : ((i:ℝ) + 1) * freqStep ≤ (j:ℝ) * freqStep :=
            mul_le_mul_of_nonneg_right hc hs.le
          have hexp : ((i:ℝ) + 1) * freqStep = (i:ℝ) * freqStep + freqStep :=
            by ring
          rw [hfi, abs_sub_comm, abs_of_pos (by linarith)]
          linarith
        · have hc : (j:ℝ) + 1 ≤ (i:ℝ) := by exact_mod_cast hgt
          have hmul : ((j:ℝ) + 1) * freqStep ≤ (i:ℝ) * freqStep :=
            mul_le_mul_of_nonneg_right hc hs.le
          have hexp : ((j:ℝ) + 1) * freqStep = (j:ℝ) * freqStep + freqStep :=
            by ring
          rw [hfi, abs_of_pos (by linarith)]
          linarith
      · have hfi : fft_freqs i = ((i:ℝ) - 16384) * freqStep := by
          unfold fft_freqs
          rw [if_neg hi8]
        have hc : (i:ℝ) ≤ 16383 := by
          have h16 : i ≤ 16383 := by omega
          exact_mod_cast h16
        have hneg : fft_freqs i ≤ -freqStep := by
          rw [hfi]
          have h1 : (i:ℝ) - 16384 ≤ -1 := by linarith
          have h2 := mul_le_mul_of_nonneg_right h1 hs.le
          linarith
        have hjpos : (0:ℝ) ≤ (j:ℝ) * freqStep := by positivity
        rw [abs_sub_comm, abs_of_pos (by linarith)]
        linarith
    linarith

/-- The startup nearest-bin lookup for the low band edge lands on bin 31. -/
lemma fft_imin_eq : fft_imin = 31 := by
  unfold fft_imin
  apply argmin_grid
  · norm_num
  · have h := midi40_lb
    push_cast
    linarith
  · have h := midi40_ub
    push_cast
    linarith

/-- The startup nearest-bin lookup for the high band edge lands on bin 245,
so the exclusive upper index is 246. -/
lemma fft_imax_eq : fft_imax = 246 := by
  unfold fft_imax
  have h245 : argminIdx
      (fun i => |fft_freqs i - midi_to_freq MIDI_MAX|) SAMPLE_SIZE = 245 := by
    apply argmin_grid
    · norm_num
    · have h := midi76_lb
      push_cast
      linarith
    · have h := midi76_ub
      push_cast
      linarith
  rw [h245]

/-- Every bin index in `[31, 245]` carries a frequency whose nearest midi
value is inside `[40, 76]`. -/
lemma freq_to_midi_in_band (i : ℕ) (hlo : 31 ≤ i) (hhi : i ≤ 245) :
    40 ≤ freq_to_midi ((i:ℝ) * freqStep) ∧
      freq_to_midi ((i:ℝ) * freqStep) ≤ 76 := by
  have hs := freqStep_pos
  have hf_lo : (31:ℝ) * freqStep ≤ (i:ℝ) * freqStep := by
    apply mul_le_mul_of_nonneg_right _ hs.le
    exact_mod_cast hlo
  have hf_hi : (i:ℝ) * freqStep ≤ (245:ℝ) * freqStep := by
    apply mul_le_mul_of_nonneg_right _ hs.le
    exact_mod_cast hhi
  have hpos31 : (0:ℝ) < 31 * freqStep := by
    have := mul_pos (by norm_num : (0:ℝ) < 31) hs
    linarith
  have hposf : (0:ℝ) < (i:ℝ) * freqStep := lt_of_lt_of_le hpos31 hf_lo
  have hpos245 : (0:ℝ) < 245 * freqStep := lt_of_lt_of_le hposf hf_hi
  have hd31 : (0:ℝ) < 31 * freqStep / 440 := by
    apply div_pos hpos31
    norm_num
  have hdf : (0:ℝ) < (i:ℝ) * freqStep / 440 := by
    apply div_pos hposf
    norm_num
  have hd245 : (0:ℝ) < 245 * freqStep / 440 := by
    apply div_pos hpos245
    norm_num
  have hlog_lo : (-59/24 : ℝ) ≤ Real.logb 2 (((i:ℝ) * freqStep) / 440) := by
    have h1 : (-59/24 : ℝ) ≤ Real.logb 2 ((31 * freqStep) / 440) := by
      rw [Real.le_logb_iff_rpow_le (by norm_num) hd31]
      apply le_of_lt
      apply lt_of_pow_lt_pow_left₀ 24 (le_of_lt hd31)
      rw [two_rpow_pow' (-59) ((-59 : ℝ)/24) 24 (by norm_num),
          show ((-59:ℝ)) = -((59:ℕ):ℝ) from by norm_num,
          Real.rpow_neg (by norm_num : (0:ℝ) ≤ 2), Real.rpow_natCast]
      unfold freqStep
      norm_num
    have h2 : Real.logb 2 ((31 * freqStep) / 440) ≤
        Real.logb 2 (((i:ℝ) * freqStep) / 440) := by
      rw [Real.logb_le_logb (by norm_num) hd31 hdf]
      exact (div_le_div_iff_of_pos_right (by norm_num)).mpr hf_lo
    linarith
  have hlog_hi : Real.logb 2 (((i:ℝ) * freqStep) / 440) < 15/24 := by
    have h1 : Real.logb 2 ((245 * freqStep) / 440) < 15/24 := by
      rw [Real.logb_lt_iff_lt_rpow (by norm_num) hd245]
      apply lt_of_pow_lt_pow_left₀ 24 (le_of_lt (two_rpow_pos _))
      rw [two_rpow_pow' (15) ((15 : ℝ)/24) 24 (by norm_num),
          show ((15:ℝ)) = ((15:ℕ):ℝ) from by norm_num, Real.rpow_natCast]
      unfold freqStep
      norm_num
    have h2 : Real.logb 2 (((i:ℝ) * freqStep) / 440) ≤
        Real.logb 2 ((245 * freqStep) / 440) := by
      rw [Real.logb_le_logb (by norm_num) hdf hd245]
      exact (div_le_div_iff_of_pos_right (by norm_num)).mpr hf_hi
    linarith
  unfold freq_to_midi
  constructor
  · rw [round_eq, Int.le_floor]
    push_cast
    linarith
  · rw [round_eq]
    have h77 : (⌊(69 + 12 * Real.logb 2 (((i:ℝ) * freqStep) / 440)) + 1/2⌋ :
        ℤ) < 77 := by
      rw [Int.floor_lt]
      push_cast
      linarith
    omega

/-- C9: for every magnitude spectrum, the dominant bin reported by the
analysis step lies inside the precomputed restricted index range
`[fft_imin, fft_imax)`, and the nearest midi value of the reported
dominant frequency is always within `[40, 76]` — regardless of where the
spectrum's overall maximum lies. -/
theorem dominant_frequency_band (mag : ℕ → ℝ) :
    fft_imin ≤ dominantIdx mag ∧ dominantIdx mag < fft_imax ∧
    40 ≤ freq_to_midi (dominantFreq mag) ∧
    freq_to_midi (dominantFreq mag) ≤ 76 := by
  have hlt : argmaxIdx (fun j => mag (fft_imin + j)) (fft_imax - fft_imin) <
      fft_imax - fft_imin := by
    unfold argmaxIdx
    apply argminIdx_lt
    rw [fft_imin_eq, fft_imax_eq]
    norm_num
  have hd : dominantIdx mag =
      argmaxIdx (fun j => mag (fft_imin + j)) (fft_imax - fft_imin) +
        fft_imin := rfl
  rw [fft_imin_eq, fft_imax_eq] at hlt hd
  have h31 : 31 ≤ dominantIdx mag := by omega
  have h245 : dominantIdx mag ≤ 245 := by omega
  have hfreq : dominantFreq mag = ((dominantIdx mag : ℕ) : ℝ) * freqStep := by
    unfold dominantFreq fft_freqs
    rw [if_pos (by omega : dominantIdx mag < 8192)]
  have hband := freq_to_midi_in_band (dominantIdx mag) h31 h245
  rw [hfreq]
  exact ⟨by rw [fft_imin_eq]; omega, by rw [fft_imax_eq]; omega,
         hband.1, hband.2⟩

end GuitarTrainer
